import Mathlib

/-!
# Verification of the korting deal-ingestion pipeline

Shallow embedding of the Python sources under `src/backend` and
`src/scripts` of the `fransjorden/korting` repository, together with
proofs settling the frozen specification claims.

Conventions of the embedding:
* monetary amounts (Python `float` holding parsed decimal prices) are
  modelled as `ℚ`; the claims settled here only depend on sign, ordering
  and exact decimal arithmetic on short literals, where binary floats and
  rationals agree;
* timestamps (Python `datetime`) are modelled as `ℤ` seconds;
  `timedelta(days = n)` is `n * oneDay`;
* fallible operations return `Option`; a skipped candidate (a `continue`
  or a caught per-item exception in the source) is `none`;
* I/O boundaries (HTTP fetch results, the XML/RSS/JSON documents already
  split into items, regex capture groups) enter the model as explicit
  inputs; everything downstream of those inputs is translated from the
  source code.
-/

set_option maxRecDepth 4000

namespace Korting

/-- One day in model seconds (`timedelta(days=1)`). -/
def oneDay : ℤ := 86400

/-! ## Python `float()` on numeric literals

`float(s)` as used by the price parsers: optional surrounding
whitespace, optional sign, decimal digits with at most one dot, optional
decimal exponent.  (The `inf`/`nan` words, underscore separators and
non-ASCII digits accepted by CPython never make a price and are outside
the modelled fragment.) -/

/-- Strip leading and trailing whitespace (Python `str.strip()`). -/
def trimChars (cs : List Char) : List Char :=
  ((cs.dropWhile Char.isWhitespace).reverse.dropWhile Char.isWhitespace).reverse

/-- Numeric value of a digit character. -/
def digitVal (c : Char) : ℕ := c.toNat - 48

/-- All characters are ASCII digits. -/
def allDigits (cs : List Char) : Bool := cs.all Char.isDigit

/-- Decimal value of a digit string. -/
def natOfDigits (cs : List Char) : ℕ :=
  cs.foldl (fun a c => 10 * a + digitVal c) 0

/-- Parse the unsigned mantissa `digits[.digits]` (at least one digit,
at most one dot) into an exact rational. -/
def parseMantissa (cs : List Char) : Option ℚ :=
  let ip := cs.takeWhile (fun c => c != '.')
  let rest := cs.dropWhile (fun c => c != '.')
  match rest with
  | [] =>
      if ip ≠ [] ∧ allDigits ip then some (natOfDigits ip) else none
  | _ :: fp =>
      if allDigits ip ∧ allDigits fp ∧ fp.all (fun c => c != '.') ∧
          (ip ≠ [] ∨ fp ≠ []) then
        some ((natOfDigits ip : ℚ) + (natOfDigits fp : ℚ) / 10 ^ fp.length)
      else none

/-- Parse a signed decimal exponent. -/
def parseExpPart (cs : List Char) : Option ℤ :=
  match cs with
  | '+' :: ds => if ds ≠ [] ∧ allDigits ds then some (natOfDigits ds) else none
  | '-' :: ds => if ds ≠ [] ∧ allDigits ds then some (-(natOfDigits ds : ℤ)) else none
  | ds => if ds ≠ [] ∧ allDigits ds then some (natOfDigits ds) else none

/-- Split a literal at the first `e`/`E`, if any. -/
def splitExpAt (cs : List Char) : List Char × Option (List Char) :=
  let m := cs.takeWhile (fun c => c != 'e' && c != 'E')
  match cs.dropWhile (fun c => c != 'e' && c != 'E') with
  | [] => (m, none)
  | _ :: rest => (m, some rest)

/-- Strip an optional leading sign; `true` marks a negative literal. -/
def splitSign : List Char → Bool × List Char
  | '+' :: r => (false, r)
  | '-' :: r => (true, r)
  | r => (false, r)

/-- Python `float()` on a character list (after its own whitespace strip);
`none` models a raised `ValueError` (the empty string fails in
`parseMantissa`). -/
def pyFloatChars (cs0 : List Char) : Option ℚ :=
  let signed := splitSign (trimChars cs0)
  let parts := splitExpAt signed.2
  match parseMantissa parts.1 with
  | none => none
  | some m =>
      match parts.2 with
      | none => some (if signed.1 then -m else m)
      | some ecs =>
          match parseExpPart ecs with
          | none => none
          | some ex => some ((if signed.1 then -m else m) * (10 : ℚ) ^ ex)

/-- Python `float()` on a string. -/
def pyFloat (s : String) : Option ℚ := pyFloatChars s.data

/-! ## `BaseScraper.parse_price` (src/backend/scrapers/base.py:114-127)

```
if not price_str: return None
price_str = re.sub(r'[â‚¬$]', '', price_str)
price_str = price_str.replace(',', '.').strip()
if '.' in price_str and price_str.count('.') > 1:
    price_str = price_str.replace('.', '', price_str.count('.') - 1)
try: return float(price_str)
except ValueError: return None
```

Note: the character class in the source file holds the literal bytes
`â`, `‚`, `¬` (a mis-decoded euro sign) plus `$`; the embedding removes
exactly those characters. -/

/-- Remove the first `n` dots of a character list
(`str.replace('.', '', n)`). -/
def removeDots : ℕ → List Char → List Char
  | 0, cs => cs
  | _ + 1, [] => []
  | n + 1, c :: cs =>
      if c = '.' then removeDots n cs else c :: removeDots (n + 1) cs

/-- The cleaning pipeline of `parse_price` before `float()`. -/
def cleanPriceChars (cs : List Char) : List Char :=
  let c1 := cs.filter (fun c => !(c = 'â' || c = '‚' || c = '¬' || c = '$'))
  let c2 := c1.map (fun c => if c = ',' then '.' else c)
  let c3 := trimChars c2
  if '.' ∈ c3 ∧ 1 < c3.count '.' then removeDots (c3.count '.' - 1) c3 else c3

/-- `BaseScraper.parse_price`. -/
def parse_price (s : String) : Option ℚ :=
  if s = "" then none else pyFloatChars (cleanPriceChars s.data)

/-! ## Rounding primitives -/

/-- Python `int(x)`: truncation toward zero. -/
def truncQ (q : ℚ) : ℤ := if 0 ≤ q then ⌊q⌋ else -⌊-q⌋

/-- Round half to even on rationals (Python `round`'s tie rule). -/
def roundHalfEven (q : ℚ) : ℤ :=
  let f := ⌊q⌋
  let r := q - (f : ℚ)
  if r < 1 / 2 then f
  else if (1 : ℚ) / 2 < r then f + 1
  else if f % 2 = 0 then f else f + 1

/-- Python `round(x, 2)` modelled as exact two-decimal half-even
rounding. -/
def round2 (q : ℚ) : ℚ := (roundHalfEven (q * 100) : ℚ) / 100

/-! ## The canonical Deal record (src/backend/models.py:13-33) -/

/-- The `Deal` dataclass.  Prices are rationals, timestamps are model
seconds. -/
structure Deal where
  id : String
  title : String
  merchant : String
  originalPrice : ℚ
  salePrice : ℚ
  discountPercentage : ℤ
  affiliateUrl : String
  category : String
  imageUrl : String
  validFrom : ℤ
  validUntil : ℤ
  source : String
  createdAt : ℤ
  isActive : Bool := true
  description : String := ""
  merchantLogo : String := ""
  couponCode : Option String := none
  status : String := "approved"
  sourceUrl : String := ""
deriving Repr, DecidableEq

/-! ## String helpers shared by the scrapers -/

/-- Python `str.strip()`. -/
def strTrim (s : String) : String := ⟨trimChars s.data⟩

/-- Python `str.lower()` (sources only use ASCII table keys). -/
def strLower (s : String) : String := ⟨s.data.map Char.toLower⟩

/-- `needle` occurs contiguously in `hay` (Python `needle in hay` on
nonempty needles). -/
def containsSub (hay needle : List Char) : Bool :=
  match hay with
  | [] => needle.isEmpty
  | _ :: t => needle.isPrefixOf hay || containsSub t needle

/-! ## Category mapping (src/backend/feed_fetcher.py:23-102) -/

/-- `CATEGORY_MAPPING`, in dict insertion order. -/
def CATEGORY_MAPPING : List (String × String) :=
  [("elektronica", "electronics"), ("electronics", "electronics"),
   ("computers", "electronics"), ("telefoons", "electronics"),
   ("phones", "electronics"), ("audio", "electronics"),
   ("video", "electronics"), ("tv", "electronics"),
   ("gaming", "electronics"), ("games", "electronics"),
   ("mode", "fashion"), ("fashion", "fashion"), ("kleding", "fashion"),
   ("clothing", "fashion"), ("schoenen", "fashion"), ("shoes", "fashion"),
   ("accessoires", "fashion"),
   ("wonen", "home"), ("home", "home"), ("huis", "home"), ("tuin", "home"),
   ("garden", "home"), ("meubels", "home"), ("furniture", "home"),
   ("keuken", "home"), ("kitchen", "home"),
   ("sport", "sports"), ("sports", "sports"), ("fitness", "sports"),
   ("outdoor", "sports"), ("fietsen", "sports"),
   ("beauty", "beauty"), ("gezondheid", "beauty"), ("health", "beauty"),
   ("cosmetica", "beauty"), ("parfum", "beauty"),
   ("food", "food"), ("eten", "food"), ("drinken", "food"),
   ("supermarkt", "food"), ("groceries", "food"),
   ("reizen", "travel"), ("travel", "travel"), ("vakantie", "travel"),
   ("hotels", "travel"), ("vluchten", "travel")]

/-- `map_category` (feed_fetcher.py:86-102): exact lookup, then
substring containment in both directions, else `other`. -/
def map_category (feedCategory : String) : String :=
  if feedCategory = "" then "other"
  else
    let normalized := strTrim (strLower feedCategory)
    match CATEGORY_MAPPING.find? (fun kv => kv.1 = normalized) with
    | some kv => kv.2
    | none =>
        match CATEGORY_MAPPING.find? (fun kv =>
            containsSub normalized.data kv.1.data ||
            containsSub kv.1.data normalized.data) with
        | some kv => kv.2
        | none => "other"

/-- `generate_deal_id` (feed_fetcher.py:105-108) hashes
`merchant:title:source` with truncated md5; the model keys a deal by the
hashed content itself, which preserves everything the claims use (id
equality of identical content). -/
def generate_deal_id (merchant title source : String) : String :=
  merchant ++ ":" ++ title ++ ":" ++ source

/-! ## Calendar dates (`datetime.strptime(s, "%Y-%m-%d")`) -/

/-- Gregorian leap year. -/
def isLeap (y : ℤ) : Bool :=
  y % 4 = 0 && (y % 100 ≠ 0 || y % 400 = 0)

/-- Days in a month. -/
def daysInMonth (y m : ℤ) : ℤ :=
  if m = 2 then (if isLeap y then 29 else 28)
  else if m = 4 ∨ m = 6 ∨ m = 9 ∨ m = 11 then 30
  else 31

/-- Days since 1970-01-01 of a civil date (standard civil-from-days
inverse; all divisions see non-negative operands for years ≥ 1). -/
def daysFromCivil (y m d : ℤ) : ℤ :=
  let y1 := if m ≤ 2 then y - 1 else y
  let era := (if 0 ≤ y1 then y1 else y1 - 399) / 400
  let yoe := y1 - era * 400
  let mp := (m + 9) % 12
  let doy := (153 * mp + 2) / 5 + d - 1
  let doe := yoe * 365 + yoe / 4 - yoe / 100 + doy
  era * 146097 + doe - 719468

/-- `datetime.strptime(s, "%Y-%m-%d")` to a midnight timestamp; `none`
models the raised `ValueError` (bad shape, out-of-range fields, year
outside `datetime`'s minimum). -/
def strptimeYMD (s : String) : Option ℤ :=
  match s.splitOn "-" with
  | [ys, ms, ds] =>
      let yc := ys.data
      let mc := ms.data
      let dc := ds.data
      if yc ≠ [] ∧ yc.length ≤ 4 ∧ allDigits yc ∧
          mc ≠ [] ∧ mc.length ≤ 2 ∧ allDigits mc ∧
          dc ≠ [] ∧ dc.length ≤ 2 ∧ allDigits dc then
        let y : ℤ := natOfDigits yc
        let m : ℤ := natOfDigits mc
        let d : ℤ := natOfDigits dc
        if 1 ≤ y ∧ 1 ≤ m ∧ m ≤ 12 ∧ 1 ≤ d ∧ d ≤ daysInMonth y m then
          some (86400 * daysFromCivil y m d)
        else none
      else none
  | _ => none

/-! ## Daisycon feed parsing (src/backend/feed_fetcher.py:111-196)

The XML layer (`ElementTree`) is the input boundary: a `<product>`
element enters the model as a record of its `findtext` results
(`none` = child element absent). -/

/-- One `<product>` element of a Daisycon feed, as seen through
`findtext`. -/
structure XmlProduct where
  name : Option String := none
  price : Option String := none
  priceOld : Option String := none
  description : Option String := none
  merchantName : Option String := none
  merchantLogo : Option String := none
  couponCode : Option String := none
  link : Option String := none
  category : Option String := none
  imageUrl : Option String := none
  validUntil : Option String := none
deriving Repr, DecidableEq

/-- The inline price cleaning of the feed parser:
`float(s.replace(',', '.').replace('€', '').strip())`. -/
def daisyParsePrice (s : String) : Option ℚ :=
  pyFloatChars
    (trimChars ((s.data.map (fun c => if c = ',' then '.' else c)).filter
      (fun c => c != '€')))

/-- Clearbit fallback logo URL used by the feed parsers:
`f"https://logo.clearbit.com/{merchant.lower().replace(' ', '')}.nl"`. -/
def clearbitLogo (merchant : String) : String :=
  "https://logo.clearbit.com/" ++
    ⟨(strLower merchant).data.filter (fun c => c != ' ')⟩ ++ ".nl"

/-- `parse_daisycon_feed`, per product (`now` is `datetime.now()`).
`none` models a `continue`: a missing/empty name, a `ValueError` from
`float`, or the `ZeroDivisionError` when the repaired original price is
zero. -/
def parseDaisyconProduct (now : ℤ) (p : XmlProduct) : Option Deal :=
  let name := p.name.getD ""
  if name = "" then none
  else
    let priceStr := p.price.getD "0"
    let priceOldStr := p.priceOld.getD priceStr
    match daisyParsePrice priceStr, daisyParsePrice priceOldStr with
    | some salePrice, some originalPrice0 =>
        -- "Skip if no discount": assume 20% discount if not specified
        let originalPrice :=
          if originalPrice0 ≤ salePrice then salePrice * (12 / 10 : ℚ)
          else originalPrice0
        if originalPrice = 0 then none
        else
          let discount := truncQ ((originalPrice - salePrice) / originalPrice * 100)
          let merchant := p.merchantName.getD "Onbekend"
          let validUntilStr := p.validUntil.getD ""
          let validUntil :=
            if validUntilStr ≠ "" then
              match strptimeYMD validUntilStr with
              | some t => t
              | none => now + 30 * oneDay
            else now + 30 * oneDay
          some
            { id := generate_deal_id merchant name "daisycon"
              title := name
              description := p.description.getD ""
              merchant := merchant
              merchantLogo := p.merchantLogo.getD (clearbitLogo merchant)
              originalPrice := originalPrice
              salePrice := salePrice
              discountPercentage := discount
              couponCode := p.couponCode
              affiliateUrl := p.link.getD ""
              category := map_category (p.category.getD "")
              imageUrl := p.imageUrl.getD ""
              validFrom := now
              validUntil := validUntil
              source := "daisycon"
              createdAt := now
              isActive := true }
    | _, _ => none

/-- `parse_daisycon_feed` over the product list of a parsed document. -/
def parseDaisyconFeed (now : ℤ) (ps : List XmlProduct) : List Deal :=
  ps.filterMap (parseDaisyconProduct now)

/-! ## Scraper lookup tables (src/backend/scrapers/base.py:28-112) -/

/-- `BaseScraper.MERCHANT_LOGOS`, in dict insertion order. -/
def MERCHANT_LOGOS : List (String × String) :=
  [("bol.com", "https://logo.clearbit.com/bol.com"),
   ("coolblue", "https://logo.clearbit.com/coolblue.nl"),
   ("mediamarkt", "https://logo.clearbit.com/mediamarkt.nl"),
   ("amazon", "https://logo.clearbit.com/amazon.nl"),
   ("zalando", "https://logo.clearbit.com/zalando.nl"),
   ("wehkamp", "https://logo.clearbit.com/wehkamp.nl"),
   ("kruidvat", "https://logo.clearbit.com/kruidvat.nl"),
   ("hema", "https://logo.clearbit.com/hema.nl"),
   ("ikea", "https://logo.clearbit.com/ikea.com"),
   ("ah", "https://logo.clearbit.com/ah.nl"),
   ("albert heijn", "https://logo.clearbit.com/ah.nl"),
   ("jumbo", "https://logo.clearbit.com/jumbo.com"),
   ("lidl", "https://logo.clearbit.com/lidl.nl"),
   ("action", "https://logo.clearbit.com/action.com"),
   ("decathlon", "https://logo.clearbit.com/decathlon.nl"),
   ("gamma", "https://logo.clearbit.com/gamma.nl"),
   ("praxis", "https://logo.clearbit.com/praxis.nl"),
   ("blokker", "https://logo.clearbit.com/blokker.nl"),
   ("douglas", "https://logo.clearbit.com/douglas.nl"),
   ("ici paris xl", "https://logo.clearbit.com/iciparisxl.nl"),
   ("booking.com", "https://logo.clearbit.com/booking.com"),
   ("thuisbezorgd", "https://logo.clearbit.com/thuisbezorgd.nl")]

/-- `BaseScraper.get_merchant_logo`: substring lookup, else a slugified
clearbit fallback. -/
def get_merchant_logo (merchant : String) : String :=
  let ml := strLower merchant
  match MERCHANT_LOGOS.find? (fun kv => containsSub ml.data kv.1.data) with
  | some kv => kv.2
  | none =>
      let domain : String :=
        ⟨ml.data.filter (fun c => c.isLower || c.isDigit)⟩
      "https://logo.clearbit.com/" ++ domain ++ ".nl"

/-- `BaseScraper.CATEGORY_KEYWORDS`, in dict insertion order. -/
def CATEGORY_KEYWORDS : List (String × List String) :=
  [("electronics",
    ["tv", "laptop", "tablet", "telefoon", "phone", "iphone", "samsung",
     "sony", "computer", "gaming", "playstation", "xbox", "nintendo",
     "koptelefoon", "headphone", "speaker", "camera", "drone"]),
   ("fashion",
    ["kleding", "schoenen", "sneakers", "nike", "adidas", "mode", "shirt",
     "jeans", "jas", "jacket", "dress", "jurk"]),
   ("home",
    ["meubel", "bank", "stoel", "tafel", "keuken", "bed", "matras", "lamp",
     "ikea", "wonen", "tuin", "garden"]),
   ("sports",
    ["sport", "fitness", "fiets", "bike", "voetbal", "hardlopen", "gym",
     "decathlon"]),
   ("beauty",
    ["parfum", "makeup", "skincare", "shampoo", "douglas", "kruidvat",
     "beauty", "cosmetica"]),
   ("food",
    ["eten", "food", "restaurant", "thuisbezorgd", "pizza", "ah", "jumbo",
     "lidl", "supermarkt"]),
   ("travel",
    ["reis", "travel", "hotel", "vlucht", "flight", "booking", "vakantie",
     "koffer"])]

/-- `BaseScraper.detect_category`. -/
def detect_category (title : String) (description : String := "") : String :=
  let text := strLower (title ++ " " ++ description)
  match CATEGORY_KEYWORDS.find? (fun ck =>
      ck.2.any (fun kw => containsSub text.data kw.data)) with
  | some ck => ck.1
  | none => "other"

/-- `BaseScraper.generate_id(*parts)`: truncated md5 of the
colon-joined parts, modelled by the joined content key itself. -/
def generate_id (parts : List String) : String :=
  String.intercalate ":" parts

/-! ## Pepper RSS scraper (src/backend/scrapers/pepper.py)

The `feedparser` layer and the regex price/merchant/coupon/image
extraction are the input boundary: an RSS entry enters the model with
the capture results of the extraction regexes.  The capture group of
each price regex is `([\d.,]+)`, so a captured token is a nonempty
string of digits, dots and commas (`priceTokClass` below records that
shape where a claim needs it). -/

/-- An RSS entry's extraction results. -/
structure PepperEntry where
  title : String
  link : String := ""
  summary : String := ""
  /-- capture of `voor\s*€?\s*([\d.,]+)` over title+summary. -/
  saleTok : Option String := none
  /-- capture of `(was|i.p.v.|van)\s*€?\s*([\d.,]+)`. -/
  origTok : Option String := none
  /-- captures of `€\s*([\d.,]+)` (for `_extract_any_price`). -/
  anyToks : List String := []
  /-- `_extract_merchant` result. -/
  merchant : String := "Diverse"
  /-- `_extract_image` result. -/
  imageUrl : String := ""
  /-- `_extract_coupon` result. -/
  couponCode : Option String := none
  /-- `published_parsed` timestamp when present. -/
  published : Option ℤ := none
deriving Repr, DecidableEq

/-- The character shape of a `([\d.,]+)` capture. -/
def priceTokClass (s : String) : Prop :=
  s ≠ "" ∧ ∀ c ∈ s.data, c.isDigit = true ∨ c = '.' ∨ c = ','

instance : DecidablePred priceTokClass := fun s => by
  unfold priceTokClass; infer_instance

/-- All price tokens of an entry have the regex capture shape. -/
def pepperTokensOk (e : PepperEntry) : Prop :=
  (∀ t, e.saleTok = some t → priceTokClass t) ∧
  (∀ t, e.origTok = some t → priceTokClass t) ∧
  (∀ t ∈ e.anyToks, priceTokClass t)

/-- Python truthiness of a float-or-None variable. -/
def truthyQ : Option ℚ → Bool
  | some q => decide (q ≠ 0)
  | none => false

/-- `PepperScraper._extract_any_price`: parse every captured token,
keep positive prices, return the minimum. -/
def extract_any_price (toks : List String) : Option ℚ :=
  ((toks.filterMap parse_price).filter
    (fun p => decide (p ≠ 0) && decide (0 < p))).min?

/-- The price/discount control flow of `_parse_entry`
(pepper.py:80-100), on the parsed extraction results:
`if original and sale and original > sale: … elif sale: …`, then the
`if not sale_price:` recovery via `_extract_any_price` with the freebie
fallback `(0, 0, 100)`. -/
def pepperPriceStep (originalPrice0 salePrice0 : Option ℚ)
    (anyPrice : Option ℚ) : Option ℚ × Option ℚ × ℤ :=
  let step1 : Option ℚ × Option ℚ × ℤ :=
    if truthyQ originalPrice0 && truthyQ salePrice0 &&
        decide (salePrice0.getD 0 < originalPrice0.getD 0) then
      (originalPrice0, salePrice0,
       truncQ ((originalPrice0.getD 0 - salePrice0.getD 0) /
         originalPrice0.getD 0 * 100))
    else if truthyQ salePrice0 then
      (some (salePrice0.getD 0 * (125 / 100 : ℚ)), salePrice0, 20)
    else (originalPrice0, salePrice0, 0)
  if truthyQ step1.2.1 then step1
  else
    match anyPrice with
    | some m =>
        if truthyQ (some m) then (some (m * (125 / 100 : ℚ)), some m, 20)
        else (some 0, some 0, 100)
    | none => (some 0, some 0, 100)

/-- `PepperScraper._parse_entry` (pepper.py:63-148); `none` models the
skip of a title-less entry (the title/description regex cleanups, pure
string cosmetics, are not modelled). -/
def pepperParseEntry (now : ℤ) (e : PepperEntry) : Option Deal :=
  if e.title = "" then none
  else
    let prices :=
      pepperPriceStep (e.origTok.bind parse_price) (e.saleTok.bind parse_price)
        (extract_any_price e.anyToks)
    let createdAt := e.published.getD now
    some
      { id := generate_id ["pepper", if e.link ≠ "" then e.link else e.title]
        title := e.title
        description := e.summary
        merchant := e.merchant
        merchantLogo := get_merchant_logo e.merchant
        originalPrice := prices.1.getD 0   -- `original_price or 0`
        salePrice := prices.2.1.getD 0     -- `sale_price or 0`
        discountPercentage := prices.2.2
        couponCode := e.couponCode
        affiliateUrl := e.link
        category := detect_category e.title e.summary
        imageUrl := e.imageUrl
        validFrom := createdAt
        validUntil := createdAt + 7 * oneDay
        source := "pepper"
        sourceUrl := e.link
        status := "pending"
        createdAt := now
        isActive := true }

/-- `PepperScraper._parse_feed` over a feed's entries; `fetch_deals`
concatenates the feeds' results without any cap. -/
def pepperParseFeed (now : ℤ) (es : List PepperEntry) : List Deal :=
  es.filterMap (pepperParseEntry now)

/-- `PepperScraper.fetch_deals` over the configured feeds. -/
def pepperFetchDeals (now : ℤ) (feeds : List (List PepperEntry)) : List Deal :=
  (feeds.map (pepperParseFeed now)).flatten

/-! ## Multi-store scraper (src/backend/scrapers/stores.py)

The JSON-LD walk (`_parse_jsonld`/`_process_jsonld`) and the HTML
regexes are the input boundary: a candidate Product/Offer node enters
`_create_deal_from_data` as the strings it reads off the JSON, and an
HTML candidate enters as the disambiguated (image, title, price)
triple. -/

/-- The store configuration fields `_create_deal_from_data` uses. -/
structure StoreCfg where
  name : String
  slug : String
  logo : String
  category : String
deriving Repr, DecidableEq

/-- A JSON-LD Product/Offer node as read by `_create_deal_from_data`:
`name`, `str(offers.get('price', ''))`, the first truthy of
`highPrice`/`priceBeforeDiscount`/`listPrice` (stringified), the
description, the image URL and the product URL. -/
structure JsonLdItem where
  name : String := ""
  priceStr : String := ""
  origStr : Option String := none
  description : Option String := none
  imageUrl : String := ""
  url : Option String := none
deriving Repr, DecidableEq

/-- `MultiStoreScraper._create_deal_from_data` (stores.py:425-495);
`none` models a filtered candidate or a caught exception. -/
def createDealFromData (now : ℤ) (cfg : StoreCfg) (item : JsonLdItem)
    (sourceUrl : String) : Option Deal :=
  let title := strTrim item.name
  if title = "" ∨ title.length < 5 then none
  else if title.data.map Char.toUpper ∈
      (["A", "B", "C", "D", "E", "F", "G", "A+", "A++", "A+++"].map
        (fun s => s.data)) then none
  else
    match parse_price item.priceStr with
    | none => none
    | some salePrice =>
        if salePrice ≤ 0 then none   -- `if not sale_price or sale_price <= 0`
        else
          let originalPrice0 :=
            match item.origStr with
            | some t =>       -- `self.parse_price(str(offers[key])) or original_price`
                match parse_price t with
                | some q => if q ≠ 0 then q else salePrice
                | none => salePrice
            | none => salePrice
          let originalPrice :=
            if originalPrice0 ≤ salePrice then salePrice * (12 / 10 : ℚ)
            else originalPrice0
          let discount := truncQ ((originalPrice - salePrice) / originalPrice * 100)
          if discount < 5 then none
          else
            some
              { id := generate_id [cfg.slug, title]
                title := title
                description := (item.description.getD "").take 200
                merchant := cfg.name
                merchantLogo := cfg.logo
                originalPrice := round2 originalPrice
                salePrice := round2 salePrice
                discountPercentage := discount
                couponCode := none
                affiliateUrl := (item.url.getD sourceUrl)
                category := detect_category title
                imageUrl := item.imageUrl
                validFrom := now
                validUntil := now + 7 * oneDay
                source := cfg.slug
                sourceUrl := (item.url.getD sourceUrl)
                status := "approved"
                createdAt := now
                isActive := true }

/-- One candidate of `_parse_html_generic` after the pattern-order
disambiguation: image URL, title, and the price capture. -/
structure HtmlItem where
  imageUrl : String := ""
  title : String := ""
  priceStr : String := ""
deriving Repr, DecidableEq

/-- The per-candidate body of `_parse_html_generic` (stores.py:513-552);
`none` models a `continue`. -/
def parseHtmlItem (now : ℤ) (cfg : StoreCfg) (item : HtmlItem)
    (sourceUrl : String) : Option Deal :=
  let title := strTrim item.title
  match parse_price item.priceStr with
  | none => none   -- `not sale_price`
  | some salePrice =>
      if title = "" ∨ title.length < 5 ∨ salePrice = 0 ∨ salePrice < 1 then none
      else if title.data.map Char.toUpper ∈
          (["A", "B", "C", "D", "E", "F", "G", "A+", "A++", "A+++"].map
            (fun s => s.data)) then none
      else
        some
          { id := generate_id [cfg.slug, title]
            title := title.take 100
            description := ""
            merchant := cfg.name
            merchantLogo := cfg.logo
            originalPrice := round2 (salePrice * (12 / 10 : ℚ))
            salePrice := round2 salePrice
            discountPercentage := 20
            couponCode := none
            affiliateUrl := sourceUrl
            category := cfg.category
            imageUrl :=
              if "http".data.isPrefixOf item.imageUrl.data then item.imageUrl
              else ""
            validFrom := now
            validUntil := now + 7 * oneDay
            source := cfg.slug
            sourceUrl := sourceUrl
            status := "approved"
            createdAt := now
            isActive := true }

/-- `MultiStoreScraper._scrape_store` (stores.py:359-378): per
configured URL, a failed fetch is skipped; JSON-LD results are
appended; the HTML fallback of a URL runs only while the accumulated
list is still empty; the store's result is capped at 30. -/
def scrapeStoreAux (acc : List Deal) :
    List (Option (List Deal × List Deal)) → List Deal
  | [] => acc
  | none :: rest => scrapeStoreAux acc rest
  | some (jsonldDeals, htmlDeals) :: rest =>
      let acc1 := acc ++ jsonldDeals
      let acc2 := if acc1 = [] then acc1 ++ htmlDeals else acc1
      scrapeStoreAux acc2 rest

/-- `_scrape_store` over the per-URL parse results (`none` = fetch
returned nothing for that URL). -/
def scrapeStore (urlResults : List (Option (List Deal × List Deal))) :
    List Deal :=
  (scrapeStoreAux [] urlResults).take 30

/-! ## JSON deal store (src/backend/deals_store.py) -/

/-- The loop of `add_deals` (deals_store.py:136-151): `ids` is the
`existing_ids` set, `acc` the working list, `added` the counter. -/
def addDealsLoop (ids : List String) (acc : List Deal) (added : ℕ) :
    List Deal → List Deal × ℕ
  | [] => (acc, added)
  | d :: rest =>
      if d.id ∈ ids then addDealsLoop ids acc added rest
      else addDealsLoop (d.id :: ids) (acc ++ [d]) (added + 1) rest

/-- `add_deals` on the loaded deal list: the updated list and the
returned count. -/
def addDeals (stored : List Deal) (newDeals : List Deal) : List Deal × ℕ :=
  addDealsLoop (stored.map (fun d => d.id)) stored 0 newDeals

/-- Specification-side description of what a batch contributes: the
batch elements whose id is not yet known, first occurrence of each id
winning, in batch order. -/
def newDeals (ids : List String) : List Deal → List Deal
  | [] => []
  | d :: rest =>
      if d.id ∈ ids then newDeals ids rest
      else d :: newDeals (d.id :: ids) rest

/-- `add_deals` including its file effect: the persisted file content
after the call, the returned count, and how many times `save_deals` ran
(the file is rewritten only when `added > 0`). -/
def addDealsFile (file : List Deal) (newDeals : List Deal) :
    List Deal × ℕ × ℕ :=
  let r := addDeals file newDeals
  if 0 < r.2 then (r.1, r.2, 1) else (file, r.2, 0)

/-- `cleanup_expired_deals` (deals_store.py:154-169) on the loaded
list: the persisted file content, the returned removed count, and the
number of `save_deals` calls. -/
def cleanupExpiredDeals (file : List Deal) (now : ℤ) :
    List Deal × ℕ × ℕ :=
  let cutoff := now - 7 * oneDay
  let activeDeals := file.filter (fun d => decide (cutoff ≤ d.validUntil))
  if activeDeals.length < file.length then
    (activeDeals, file.length - activeDeals.length, 1)
  else (file, 0, 0)

/-! ## SQLite store (src/backend/database.py) -/

/-- `insert_deal` (database.py:69-91) issues `INSERT OR REPLACE`: the
row with a conflicting id is deleted and the new row inserted.  The
table is modelled as an id-keyed list of deals. -/
def insertDeal (db : List Deal) (d : Deal) : List Deal :=
  db.filter (fun x => x.id ≠ d.id) ++ [d]

/-- Row lookup by primary key (`SELECT … WHERE id = ?`). -/
def dbGetDeal (db : List Deal) (dealId : String) : Option Deal :=
  db.find? (fun d => d.id = dealId)

/-- `update_deals_from_feeds` (feed_fetcher.py:313-350): every parsed
deal of every fetched feed is passed to `insert_deal`; the insert count
is returned. -/
def updateDealsFromFeeds (db : List Deal) (batches : List (List Deal)) :
    List Deal × ℕ :=
  batches.foldl
    (fun st batch =>
      batch.foldl (fun st d => (insertDeal st.1 d, st.2 + 1)) st)
    (db, 0)

/-! ## Feed fetching with cache (src/backend/feed_fetcher.py:270-310)

Inputs: the cache file state (`none` = absent, else its mtime and
content), the current time, the cache window in hours, the HTTP
response body (`none` = network error or decode failure), and whether
the cache write succeeds.  The try block spans both the HTTP request
and the cache write, and every exception inside it yields `None`. -/

def fetchFeed (cache : Option (ℤ × String)) (now : ℤ) (cacheHours : ℤ)
    (httpBody : Option String) (writeOk : Bool) : Option String :=
  let fresh : Option String :=
    match httpBody with
    | none => none
    | some content => if writeOk then some content else none
  match cache with
  | some (mtime, content) =>
      if now - mtime < cacheHours * 3600 then some content else fresh
  | none => fresh

/-! ## Scraper pipeline entry point (src/scripts/run_scrapers.py:51-111)

`main` loads the existing deals, filters the scraped batch against the
existing id set, appends and saves. -/

/-- The merge step of `run_scrapers.main`. -/
def mainMerge (existingDeals : List Deal) (newDeals : List Deal) :
    List Deal :=
  existingDeals ++
    newDeals.filter (fun d =>
      !((existingDeals.map (fun e => e.id)).contains d.id))

/-! ## Concrete fixtures for witnesses and counterexamples -/

/-- A minimal deal record for concrete store tests. -/
def testDeal (i title : String) (validUntil : ℤ) : Deal :=
  { id := i, title := title, merchant := "M", originalPrice := 4, salePrice := 2,
    discountPercentage := 50, affiliateUrl := "", category := "other",
    imageUrl := "", validFrom := 0, validUntil := validUntil, source := "test",
    createdAt := 0 }

/-- A feed product with a negative price string. -/
def prodNeg : XmlProduct := { name := some "Widget Pro", price := some "-5" }

/-- A feed product whose discount percentage is fractional (66.67%). -/
def prodThird : XmlProduct :=
  { name := some "Widget Pro", price := some "1", priceOld := some "3" }

/-- A well-behaved feed product. -/
def prodOk : XmlProduct :=
  { name := some "Widget Pro", price := some "2", priceOld := some "4" }

/-- A feed product carrying an expiry date in the past. -/
def prodPast : XmlProduct :=
  { name := some "Widget Pro", price := some "2", priceOld := some "4",
    validUntil := some "2020-01-01" }

/-- A pepper entry with one extracted sale price. -/
def entryW : PepperEntry := { title := "Ding voor 3 euro", saleTok := some "3" }

/-- The model timestamp of 2025-01-01. -/
def t2025 : ℤ := 86400 * daysFromCivil 2025 1 1

/-! ## Lemmas about the numeric parsers -/

theorem mem_of_mem_trimChars {c : Char} {cs : List Char}
    (h : c ∈ trimChars cs) : c ∈ cs := by
  unfold trimChars at h
  rw [List.mem_reverse] at h
  have h1 := (List.dropWhile_sublist (l := (cs.dropWhile Char.isWhitespace).reverse)
    (p := Char.isWhitespace)).mem h
  rw [List.mem_reverse] at h1
  exact (List.dropWhile_sublist (l := cs) (p := Char.isWhitespace)).mem h1

theorem parseMantissa_nonneg {cs : List Char} {m : ℚ}
    (h : parseMantissa cs = some m) : 0 ≤ m := by
  unfold parseMantissa at h
  simp only [] at h
  split at h
  · split at h
    · injection h with h
      subst h
      positivity
    · exact absurd h (by simp)
  · split at h
    · injection h with h
      subst h
      positivity
    · exact absurd h (by simp)

theorem splitSign_fst_eq_false {cs : List Char} (hm : '-' ∉ cs) :
    (splitSign cs).1 = false := by
  unfold splitSign
  split
  · rfl
  · exact absurd (List.mem_cons_self _ _) hm
  · rfl

theorem pyFloatChars_nonneg {cs : List Char} {q : ℚ}
    (h : pyFloatChars cs = some q) (hm : '-' ∉ cs) : 0 ≤ q := by
  have hm' : '-' ∉ trimChars cs := fun hc => hm (mem_of_mem_trimChars hc)
  have hneg := splitSign_fst_eq_false hm'
  unfold pyFloatChars at h
  simp only [] at h
  rw [hneg] at h
  simp only [Bool.false_eq_true, if_false] at h
  split at h
  · exact absurd h (by simp)
  · rename_i m hmant
    split at h
    · injection h with h
      subst h
      exact parseMantissa_nonneg hmant
    · split at h
      · exact absurd h (by simp)
      · rename_i ex hex
        injection h with h
        subst h
        have h10 : (0 : ℚ) < (10 : ℚ) ^ ex := zpow_pos (by norm_num) ex
        exact mul_nonneg (parseMantissa_nonneg hmant) h10.le

theorem mem_of_mem_removeDots {c : Char} {n : ℕ} {cs : List Char}
    (h : c ∈ removeDots n cs) : c ∈ cs := by
  induction cs generalizing n with
  | nil => cases n <;> simp [removeDots] at h
  | cons x t ih =>
      cases n with
      | zero => simpa [removeDots] using h
      | succ k =>
          unfold removeDots at h
          split at h
          · exact List.mem_cons_of_mem _ (ih h)
          · rcases List.mem_cons.mp h with h | h
            · exact h ▸ List.mem_cons_self _ _
            · exact List.mem_cons_of_mem _ (ih h)

theorem cleanPriceChars_no_minus {cs : List Char} (hm : '-' ∉ cs) :
    '-' ∉ cleanPriceChars cs := by
  unfold cleanPriceChars
  simp only []
  intro hc
  have key : ∀ c2 ∈ trimChars ((cs.filter
      (fun c => !(c = 'â' || c = '‚' || c = '¬' || c = '$'))).map
        (fun c => if c = ',' then '.' else c)), c2 ≠ '-' := by
    intro c2 hc2 hick
    subst hick
    have h2 := mem_of_mem_trimChars hc2
    rcases List.mem_map.mp h2 with ⟨c1, hc1, hmapped⟩
    have hc1cs := List.mem_of_mem_filter hc1
    by_cases h : c1 = ','
    · simp [h] at hmapped
    · rw [if_neg h] at hmapped
      exact hm (hmapped ▸ hc1cs)
  split at hc
  · exact key _ (mem_of_mem_removeDots hc) rfl
  · exact key _ hc rfl

theorem parse_price_nonneg {s : String} {q : ℚ}
    (h : parse_price s = some q) (hm : '-' ∉ s.data) : 0 ≤ q := by
  unfold parse_price at h
  split at h
  · exact absurd h (by simp)
  · exact pyFloatChars_nonneg h (cleanPriceChars_no_minus hm)

theorem priceTokClass_no_minus {s : String} (h : priceTokClass s) :
    '-' ∉ s.data := by
  intro hc
  rcases h.2 _ hc with h1 | h1 | h1 <;> simp_all [Char.isDigit]

theorem parse_price_tok_nonneg {s : String} {q : ℚ}
    (h : parse_price s = some q) (ht : priceTokClass s) : 0 ≤ q :=
  parse_price_nonneg h (priceTokClass_no_minus ht)

/-! ## Lemmas about truncation and rounding -/

theorem truncQ_of_nonneg {q : ℚ} (h : 0 ≤ q) : truncQ q = ⌊q⌋ := if_pos h

theorem truncQ_nonneg {q : ℚ} (h : 0 ≤ q) : 0 ≤ truncQ q := by
  rw [truncQ_of_nonneg h]
  exact Int.floor_nonneg.mpr h

theorem truncQ_le {q : ℚ} {n : ℤ} (h0 : 0 ≤ q) (h : q ≤ (n : ℚ)) :
    truncQ q ≤ n := by
  rw [truncQ_of_nonneg h0]
  exact (Int.floor_mono h).trans_eq (Int.floor_intCast n)

/-- The bounds of the computed discount whenever `0 ≤ sale ≤ original`
and `original > 0`. -/
theorem discount_bounds {o s : ℚ} (hs : 0 ≤ s) (hso : s ≤ o) (ho : 0 < o) :
    0 ≤ truncQ ((o - s) / o * 100) ∧ truncQ ((o - s) / o * 100) ≤ 100 := by
  have hq0 : 0 ≤ (o - s) / o * 100 :=
    mul_nonneg (div_nonneg (by linarith) ho.le) (by norm_num)
  have hq1 : (o - s) / o * 100 ≤ (100 : ℚ) := by
    have h1 : (o - s) / o ≤ 1 := (div_le_one ho).mpr (by linarith)
    nlinarith
  exact ⟨truncQ_nonneg hq0, truncQ_le hq0 (by exact_mod_cast hq1)⟩

theorem roundHalfEven_cases (q : ℚ) :
    roundHalfEven q = ⌊q⌋ ∨ roundHalfEven q = ⌊q⌋ + 1 := by
  unfold roundHalfEven
  simp only []
  split
  · exact Or.inl rfl
  · split
    · exact Or.inr rfl
    · split
      · exact Or.inl rfl
      · exact Or.inr rfl

theorem roundHalfEven_nonneg {q : ℚ} (h : 0 ≤ q) : 0 ≤ roundHalfEven q := by
  have h0 : (0 : ℤ) ≤ ⌊q⌋ := Int.floor_nonneg.mpr h
  rcases roundHalfEven_cases q with hc | hc <;> omega

theorem roundHalfEven_mono {a b : ℚ} (h : a ≤ b) :
    roundHalfEven a ≤ roundHalfEven b := by
  have hfl : ⌊a⌋ ≤ ⌊b⌋ := Int.floor_mono h
  rcases lt_or_eq_of_le hfl with hlt | heq
  · rcases roundHalfEven_cases a with ha | ha <;>
      rcases roundHalfEven_cases b with hb | hb <;> omega
  · unfold roundHalfEven
    simp only []
    rw [heq]
    have hr : a - (⌊b⌋ : ℚ) ≤ b - (⌊b⌋ : ℚ) := by linarith
    split <;> repeat' split
    all_goals first | omega | (exfalso; linarith)

theorem round2_nonneg {q : ℚ} (h : 0 ≤ q) : 0 ≤ round2 q := by
  unfold round2
  have := roundHalfEven_nonneg (q := q * 100) (by positivity)
  positivity

theorem round2_mono {a b : ℚ} (h : a ≤ b) : round2 a ≤ round2 b := by
  unfold round2
  have := roundHalfEven_mono (a := a * 100) (b := b * 100) (by nlinarith)
  have hcast : ((roundHalfEven (a * 100) : ℚ)) ≤ (roundHalfEven (b * 100) : ℚ) := by
    exact_mod_cast this
  linarith

/-! ## Lemmas about the add/merge step -/

theorem addDealsLoop_eq (ids : List String) (acc : List Deal) (n : ℕ)
    (batch : List Deal) :
    addDealsLoop ids acc n batch =
      (acc ++ newDeals ids batch, n + (newDeals ids batch).length) := by
  induction batch generalizing ids acc n with
  | nil => simp [addDealsLoop, newDeals]
  | cons d rest ih =>
      unfold addDealsLoop newDeals
      by_cases hd : d.id ∈ ids
      · rw [if_pos hd, if_pos hd, ih]
      · rw [if_neg hd, if_neg hd, ih]
        simp [Nat.add_assoc, Nat.add_comm 1]

theorem newDeals_sublist (ids : List String) (batch : List Deal) :
    (newDeals ids batch).Sublist batch := by
  induction batch generalizing ids with
  | nil => simp [newDeals]
  | cons d rest ih =>
      unfold newDeals
      split
      · exact (ih ids).cons d
      · exact (ih _).cons₂ d

theorem newDeals_mem {ids : List String} {batch : List Deal} {d : Deal}
    (h : d ∈ newDeals ids batch) : d ∈ batch ∧ d.id ∉ ids := by
  induction batch generalizing ids with
  | nil => simp [newDeals] at h
  | cons x rest ih =>
      unfold newDeals at h
      split at h
      · have := ih h
        exact ⟨List.mem_cons_of_mem _ this.1, this.2⟩
      · rcases List.mem_cons.mp h with h | h
        · subst h
          exact ⟨List.mem_cons_self _ _, by assumption⟩
        · have := ih h
          refine ⟨List.mem_cons_of_mem _ this.1, fun hc => this.2 ?_⟩
          exact List.mem_cons_of_mem _ hc

theorem newDeals_ids_nodup (ids : List String) (batch : List Deal) :
    ((newDeals ids batch).map (fun d => d.id)).Nodup := by
  induction batch generalizing ids with
  | nil => simp [newDeals]
  | cons d rest ih =>
      unfold newDeals
      split
      · exact ih ids
      · simp only [List.map_cons, List.nodup_cons]
        refine ⟨fun hc => ?_, ih _⟩
        rcases List.mem_map.mp hc with ⟨e, he, heq⟩
        exact (newDeals_mem he).2 (heq ▸ List.mem_cons_self _ _)

theorem newDeals_covers {ids : List String} {batch : List Deal} {d : Deal}
    (h : d ∈ batch) :
    d.id ∈ ids ∨ d.id ∈ (newDeals ids batch).map (fun x => x.id) := by
  induction batch generalizing ids with
  | nil => simp at h
  | cons x rest ih =>
      unfold newDeals
      rcases List.mem_cons.mp h with h | h
      · subst h
        by_cases hx : d.id ∈ ids
        · exact Or.inl hx
        · rw [if_neg hx]
          exact Or.inr (by simp)
      · by_cases hx : x.id ∈ ids
        · rw [if_pos hx]
          exact ih h
        · rw [if_neg hx]
          rcases @ih (x.id :: ids) h with hm | hm
          · rcases List.mem_cons.mp hm with hm | hm
            · exact Or.inr (by simp [hm])
            · exact Or.inl hm
          · exact Or.inr (List.mem_cons_of_mem _ hm)

theorem newDeals_eq_nil {ids : List String} {batch : List Deal}
    (h : ∀ d ∈ batch, d.id ∈ ids) : newDeals ids batch = [] := by
  induction batch with
  | nil => rfl
  | cons d rest ih =>
      unfold newDeals
      rw [if_pos (h d (List.mem_cons_self _ _))]
      exact ih fun x hx => h x (List.mem_cons_of_mem _ hx)

theorem addDeals_eq (stored batch : List Deal) :
    addDeals stored batch =
      (stored ++ newDeals (stored.map (fun d => d.id)) batch,
       (newDeals (stored.map (fun d => d.id)) batch).length) := by
  unfold addDeals
  rw [addDealsLoop_eq]
  simp

/-- A deal found by id after `INSERT OR REPLACE` is the inserted one. -/
theorem dbGetDeal_insertDeal (db : List Deal) (d : Deal) :
    dbGetDeal (insertDeal db d) d.id = some d := by
  unfold dbGetDeal insertDeal
  induction db with
  | nil => simp
  | cons x rest ih =>
      by_cases hx : x.id = d.id <;>
        simp only [List.filter_cons, hx, decide_not] <;> simp [ih, hx]

/-! ## Claim C5: retention boundary -/

/-- Claim C5: for every deal list and time `now`, `cleanup_expired_deals`
keeps exactly the deals with `valid_until >= now - 7 days` (so a deal
expired 8 days ago is removed, one expired 6 days ago is kept), and
returns the number removed. -/
theorem C5_retention_boundary (file : List Deal) (now : ℤ) :
    (∀ d, d ∈ (cleanupExpiredDeals file now).1 ↔
        d ∈ file ∧ now - 7 * oneDay ≤ d.validUntil) ∧
    (cleanupExpiredDeals file now).2.1 =
        file.length - (cleanupExpiredDeals file now).1.length ∧
    (∀ d ∈ file, d.validUntil = now - 8 * oneDay →
        d ∉ (cleanupExpiredDeals file now).1) ∧
    (∀ d ∈ file, d.validUntil = now - 6 * oneDay →
        d ∈ (cleanupExpiredDeals file now).1) := by
  have hmem : ∀ d, d ∈ (cleanupExpiredDeals file now).1 ↔
      d ∈ file ∧ now - 7 * oneDay ≤ d.validUntil := by
    intro d
    unfold cleanupExpiredDeals
    simp only []
    split
    · simp [List.mem_filter]
    · rename_i hlen
      push_neg at hlen
      have hsub := List.filter_sublist
        (l := file) (p := fun d => decide (now - 7 * oneDay ≤ d.validUntil))
      have heq : file.filter (fun d => decide (now - 7 * oneDay ≤ d.validUntil)) = file :=
        hsub.eq_of_length_le hlen
      have hall := List.filter_eq_self.mp heq
      constructor
      · intro hd
        exact ⟨hd, by simpa using hall d hd⟩
      · exact fun hd => hd.1
  refine ⟨hmem, ?_, ?_, ?_⟩
  · unfold cleanupExpiredDeals
    simp only []
    split
    · rfl
    · simp
  · intro d hd hvu hc
    have := (hmem d).mp hc
    rw [hvu] at this
    have h8 : ¬(now - 7 * oneDay ≤ now - 8 * oneDay) := by
      simp only [oneDay]; omega
    exact h8 this.2
  · intro d hd hvu
    refine (hmem d).mpr ⟨hd, ?_⟩
    rw [hvu]
    simp only [oneDay]; omega

/-- Witness for C5 at a concrete list: the 8-days-expired deal is
pruned and the 6-days-expired one kept. -/
theorem C5_witness :
    testDeal "old" "Old" (-8 * oneDay) ∉
        (cleanupExpiredDeals
          [testDeal "old" "Old" (-8 * oneDay), testDeal "new" "New" (-6 * oneDay)] 0).1 ∧
    testDeal "new" "New" (-6 * oneDay) ∈
        (cleanupExpiredDeals
          [testDeal "old" "Old" (-8 * oneDay), testDeal "new" "New" (-6 * oneDay)] 0).1 :=
  ⟨(C5_retention_boundary _ 0).2.2.1 _ (List.mem_cons_self _ _) (by simp [testDeal]),
   (C5_retention_boundary _ 0).2.2.2 _
      (List.mem_cons_of_mem _ (List.mem_cons_self _ _)) (by simp [testDeal])⟩

/-! ## Claim C7: idempotent ingestion -/

/-- Claim C7: applying the add/merge step a second time with the same
batch adds zero deals and leaves the stored list (hence its id set)
unchanged — both for `deals_store.add_deals` and for the
`run_scrapers.main` merge. -/
theorem C7_ingestion_idempotent (stored batch : List Deal) :
    addDeals (addDeals stored batch).1 batch = ((addDeals stored batch).1, 0) ∧
    mainMerge (mainMerge stored batch) batch = mainMerge stored batch := by
  constructor
  · rw [addDeals_eq, addDeals_eq]
    have hcov : ∀ d ∈ batch,
        d.id ∈ ((stored ++ newDeals (stored.map (fun x => x.id)) batch).map
          (fun x => x.id)) := by
      intro d hd
      rw [List.map_append, List.mem_append]
      exact newDeals_covers hd
    rw [newDeals_eq_nil hcov]
    simp
  · unfold mainMerge
    have hnil : (batch.filter (fun d =>
        !(((stored ++ batch.filter (fun d =>
            !((stored.map (fun e => e.id)).contains d.id))).map
          (fun e => e.id)).contains d.id))) = [] := by
      rw [List.filter_eq_nil_iff]
      intro d hd hcon
      rw [Bool.not_eq_true'] at hcon
      suffices hc : (((stored ++ batch.filter (fun d =>
          !((stored.map (fun e => e.id)).contains d.id))).map
            (fun e => e.id)).contains d.id) = true by
        rw [hc] at hcon
        cases hcon
      rw [List.contains_eq_any_beq]
      simp only [List.any_eq_true, beq_iff_eq]
      by_cases hin : d.id ∈ stored.map (fun e => e.id)
      · exact ⟨d.id, by rw [List.map_append, List.mem_append]; exact Or.inl hin, rfl⟩
      · refine ⟨d.id, ?_, rfl⟩
        rw [List.map_append, List.mem_append]
        right
        refine List.mem_map.mpr ⟨d, ?_, rfl⟩
        refine List.mem_filter.mpr ⟨hd, ?_⟩
        simp only [Bool.not_eq_true']
        rw [List.contains_eq_any_beq]
        simp only [List.any_eq_false, beq_iff_eq]
        intro x hx hxe
        exact hin (hxe ▸ hx)
    rw [hnil, List.append_nil]

/-! ## Claim C10: the frame of add_deals -/

/-- Claim C10: `add_deals` appends, after the unchanged stored list,
exactly the batch deals whose id was not yet present (first occurrence
of an id wins, batch order preserved), returns their number, and
rewrites the stored file only when that number is positive. -/
theorem C10_addDeals_frame (file batch : List Deal) :
    (addDealsFile file batch).1 =
        file ++ newDeals (file.map (fun d => d.id)) batch ∧
    (addDealsFile file batch).1.take file.length = file ∧
    (∀ d ∈ (addDealsFile file batch).1.drop file.length,
        d ∈ batch ∧ d.id ∉ file.map (fun e => e.id)) ∧
    ((addDealsFile file batch).1.drop file.length).Sublist batch ∧
    (((addDealsFile file batch).1.drop file.length).map (fun d => d.id)).Nodup ∧
    (addDealsFile file batch).2.1 =
        ((addDealsFile file batch).1.drop file.length).length ∧
    (addDealsFile file batch).2.2 =
        (if (addDealsFile file batch).2.1 = 0 then 0 else 1) ∧
    ((addDealsFile file batch).2.1 = 0 → (addDealsFile file batch).1 = file) := by
  have hfile : (addDealsFile file batch).1 =
      file ++ newDeals (file.map (fun d => d.id)) batch := by
    unfold addDealsFile
    rw [addDeals_eq]
    simp only []
    split
    · rfl
    · rename_i hpos
      have hn0 : newDeals (file.map (fun d => d.id)) batch = [] := by
        cases hn : newDeals (file.map (fun d => d.id)) batch with
        | nil => rfl
        | cons a l => rw [hn] at hpos; simp at hpos
      rw [hn0, List.append_nil]
  have hcnt : (addDealsFile file batch).2.1 =
      (newDeals (file.map (fun d => d.id)) batch).length := by
    unfold addDealsFile
    rw [addDeals_eq]
    simp only []
    split <;> rfl
  have hdrop : (addDealsFile file batch).1.drop file.length =
      newDeals (file.map (fun d => d.id)) batch := by
    rw [hfile, List.drop_left]
  refine ⟨hfile, ?_, ?_, ?_, ?_, ?_, ?_, ?_⟩
  · rw [hfile, List.take_left]
  · intro d hd
    rw [hdrop] at hd
    exact newDeals_mem hd
  · rw [hdrop]
    exact newDeals_sublist _ _
  · rw [hdrop]
    exact newDeals_ids_nodup _ _
  · rw [hdrop, hcnt]
  · have hwr : (addDealsFile file batch).2.2 =
        (if (newDeals (file.map (fun d => d.id)) batch).length = 0 then 0 else 1) := by
      unfold addDealsFile
      rw [addDeals_eq]
      dsimp only []
      split
      · rename_i hpos
        rw [if_neg (by omega)]
      · rename_i hpos
        rw [if_pos (by omega)]
    rw [hwr, hcnt]
  · intro h0
    rw [hcnt, List.length_eq_zero] at h0
    rw [hfile, h0, List.append_nil]

/-- Witness for C10 at a concrete store and batch: the duplicate-id
candidate is dropped, the fresh one appended after the unchanged
prefix, and the file is written once. -/
theorem C10_witness :
    (addDealsFile [testDeal "a" "T1" 0]
        [testDeal "a" "T2" 0, testDeal "b" "T3" 0]).1.take 1 =
      [testDeal "a" "T1" 0] ∧
    (testDeal "b" "T3" 0 ∈ [testDeal "a" "T2" 0, testDeal "b" "T3" 0] ∧
      (testDeal "b" "T3" 0).id ∉ [testDeal "a" "T1" 0].map (fun e => e.id)) ∧
    (addDealsFile [testDeal "a" "T1" 0]
        [testDeal "a" "T2" 0, testDeal "b" "T3" 0]).2.2 = 1 := by
  have hth := C10_addDeals_frame [testDeal "a" "T1" 0]
    [testDeal "a" "T2" 0, testDeal "b" "T3" 0]
  simp only [List.length_singleton] at hth
  have hdropmem : testDeal "b" "T3" 0 ∈
      (addDealsFile [testDeal "a" "T1" 0]
        [testDeal "a" "T2" 0, testDeal "b" "T3" 0]).1.drop 1 := by
    rw [hth.1]
    with_unfolding_all decide
  refine ⟨hth.2.1, hth.2.2.1 _ hdropmem, ?_⟩
  have hne : (addDealsFile [testDeal "a" "T1" 0]
      [testDeal "a" "T2" 0, testDeal "b" "T3" 0]).2.1 ≠ 0 := by
    rw [hth.2.2.2.2.2.1]
    intro hc
    rw [List.length_eq_zero] at hc
    rw [hc] at hdropmem
    simp at hdropmem
  rw [hth.2.2.2.2.2.2.1, if_neg hne]
/-! ## Claim C1: merge stability versus feed replacement -/

/-- Counterexample to claim C1: the feed ingestion path
(`update_deals_from_feeds` calling `insert_deal`, an
`INSERT OR REPLACE`) does replace the already-present id's record: after
ingesting a batch holding a different deal with the stored id, the
stored record's fields are the incoming ones. -/
theorem C1_counterexample :
    dbGetDeal (updateDealsFromFeeds [testDeal "x" "Old title" 0]
        [[testDeal "x" "New title" 0]]).1 "x" =
      some (testDeal "x" "New title" 0) ∧
    testDeal "x" "Old title" 0 ≠ testDeal "x" "New title" 0 := by
  with_unfolding_all decide

/-- Claim C1 as amended: the `add_deals` merge path keeps every
existing deal unchanged (the stored list is a prefix of the result) and
drops incoming candidates whose id is present; but the feed ingestion
path replaces: after `insert_deal`, looking up the id of an
already-present record returns the incoming deal. -/
theorem C1_merge_keeps_insert_replaces :
    (∀ stored batch : List Deal,
        (addDeals stored batch).1.take stored.length = stored) ∧
    (∀ stored batch : List Deal, ∀ d ∈ (addDeals stored batch).1.drop stored.length,
        d.id ∉ stored.map (fun e => e.id)) ∧
    (∀ (db : List Deal) (d e : Deal), e ∈ db → e.id = d.id →
        dbGetDeal (insertDeal db d) e.id = some d) := by
  refine ⟨?_, ?_, ?_⟩
  · intro stored batch
    rw [addDeals_eq]
    dsimp only []
    rw [List.take_left]
  · intro stored batch d hd
    rw [addDeals_eq] at hd
    dsimp only [] at hd
    rw [List.drop_left] at hd
    exact (newDeals_mem hd).2
  · intro db d e _ heq
    rw [heq]
    exact dbGetDeal_insertDeal db d

/-- Witness for C1 as amended, at a concrete store, batch, and
conflicting insert. -/
theorem C1_witness :
    (addDeals [testDeal "x" "Old title" 0] [testDeal "y" "B" 0]).1.take 1 =
      [testDeal "x" "Old title" 0] ∧
    dbGetDeal (insertDeal [testDeal "x" "Old title" 0] (testDeal "x" "New title" 0))
        (testDeal "x" "Old title" 0).id = some (testDeal "x" "New title" 0) := by
  constructor
  · have h := C1_merge_keeps_insert_replaces.1 [testDeal "x" "Old title" 0]
      [testDeal "y" "B" 0]
    simpa using h
  · exact C1_merge_keeps_insert_replaces.2.2 [testDeal "x" "Old title" 0]
      (testDeal "x" "New title" 0) (testDeal "x" "Old title" 0)
      (List.mem_cons_self _ _) rfl

/-! ## Claim C8: cache-write failure fails the fetch -/

/-- Counterexample to claim C8: with no usable cache, a successful HTTP
GET and a failing cache write, `fetch_feed` returns the failure value
`None` instead of the fetched body — the cache write sits inside the
same `try` block as the request. -/
theorem C8_counterexample :
    fetchFeed none 0 1 (some "<products/>") false = none ∧
    some "<products/>" ≠ (none : Option String) := by
  constructor
  · rfl
  · simp

/-- Claim C8 as amended: on a cache miss the fetched body is returned
only when the cache write also succeeds; a failed cache write makes the
fetch return `None` even though the GET succeeded.  A fresh cache hit
short-circuits, and a failed GET returns `None`. -/
theorem C8_fetch_cache_write :
    (∀ now hrs body, fetchFeed none now hrs (some body) true = some body) ∧
    (∀ now hrs body, fetchFeed none now hrs (some body) false = none) ∧
    (∀ mtime content now hrs body w, now - mtime < hrs * 3600 →
        fetchFeed (some (mtime, content)) now hrs body w = some content) ∧
    (∀ mtime content now hrs body, ¬(now - mtime < hrs * 3600) →
        fetchFeed (some (mtime, content)) now hrs (some body) false = none) ∧
    (∀ now hrs w, fetchFeed none now hrs none w = none) := by
  refine ⟨fun now hrs body => rfl, fun now hrs body => rfl, ?_, ?_, fun now hrs w => rfl⟩
  · intro mtime content now hrs body w h
    unfold fetchFeed
    dsimp only []
    rw [if_pos h]
  · intro mtime content now hrs body h
    unfold fetchFeed
    dsimp only []
    rw [if_neg h]
    simp

/-- Witness for C8 at concrete times and bodies. -/
theorem C8_witness :
    fetchFeed (some (0, "cached")) 100 1 (some "fresh") false = some "cached" ∧
    fetchFeed (some (0, "cached")) 7200 1 (some "fresh") false = none :=
  ⟨C8_fetch_cache_write.2.2.1 0 "cached" 100 1 (some "fresh") false (by omega),
   C8_fetch_cache_write.2.2.2.1 0 "cached" 7200 1 "fresh" (by omega)⟩

/-! ## Claim C6: price parsing and negative numbers -/

/-- Counterexample to claim C6: `parse_price` has no non-negativity
check — the string `"-5"` parses to the negative value `-5` instead of
the skip value `None`. -/
theorem C6_counterexample :
    parse_price "-5" = some (-5) ∧ ((-5 : ℚ) < 0) := by
  constructor
  · with_unfolding_all decide
  · norm_num

/-- Claim C6 as amended: `parse_price` strips the configured currency
characters, maps commas to dots and collapses repeated dots, and
returns whatever the cleaned text parses to — non-negative whenever the
input has no minus sign, but negative numbers are returned rather than
skipped; only unparsable text yields `None`. -/
theorem C6_parse_price_sign :
    (∀ (s : String) (q : ℚ), parse_price s = some q → '-' ∉ s.data → 0 ≤ q) ∧
    parse_price "-5" = some (-5) := by
  constructor
  · intro s q h hm
    exact parse_price_nonneg h hm
  · with_unfolding_all decide

/-- Witness for C6 at a concrete Dutch-format price string. -/
theorem C6_witness :
    parse_price "3,5" = some (7 / 2) ∧ (0 : ℚ) ≤ 7 / 2 :=
  ⟨by with_unfolding_all decide,
   C6_parse_price_sign.1 "3,5" (7 / 2) (by with_unfolding_all decide) (by decide)⟩

/-! ## Claim C9: bounded candidate counts -/

/-- The length of a `filterMap` is the number of inputs the function
accepts. -/
theorem length_filterMap_eq_length_filter {α β : Type} (f : α → Option β)
    (l : List α) :
    (l.filterMap f).length = (l.filter (fun a => (f a).isSome)).length := by
  induction l with
  | nil => rfl
  | cons a t ih =>
      rw [List.filterMap_cons, List.filter_cons]
      cases hf : f a with
      | none => simpa [hf] using ih
      | some b => simpa [hf] using ih

/-- Counterexample to claim C9: the affiliate-feed parser has no cap —
a document with 31 parseable products yields 31 candidate deals, above
the claimed 20–30 range. -/
theorem C9_counterexample :
    (parseDaisyconFeed 0 (List.replicate 31 prodOk)).length = 31 ∧
    ¬((parseDaisyconFeed 0 (List.replicate 31 prodOk)).length ≤ 30) := by
  constructor
  · with_unfolding_all decide
  · intro hc
    have h31 : (parseDaisyconFeed 0 (List.replicate 31 prodOk)).length = 31 := by
      with_unfolding_all decide
    omega

/-- Claim C9 as amended: only the scraped-page variant is capped (at
most 30 deals per store); the affiliate-feed and RSS parsers return one
candidate per successfully parsed item with no cap at all. -/
theorem C9_only_store_scraper_capped :
    (∀ urlResults, (scrapeStore urlResults).length ≤ 30) ∧
    (∀ now ps, (parseDaisyconFeed now ps).length =
        (ps.filter (fun p => (parseDaisyconProduct now p).isSome)).length) ∧
    (∀ now feeds, (pepperFetchDeals now feeds).length =
        (feeds.map (fun es => (es.filter
          (fun e => (pepperParseEntry now e).isSome)).length)).sum) := by
  refine ⟨?_, ?_, ?_⟩
  · intro urlResults
    unfold scrapeStore
    rw [List.length_take]
    omega
  · intro now ps
    exact length_filterMap_eq_length_filter _ ps
  · intro now feeds
    unfold pepperFetchDeals
    rw [List.length_flatten, List.map_map]
    apply congrArg
    apply List.map_congr_left
    intro es _
    exact length_filterMap_eq_length_filter _ es

/-! ## Characterizations of the deal producers -/

theorem truthyQ_eq_true {x : Option ℚ} :
    truthyQ x = true ↔ ∃ q, x = some q ∧ q ≠ 0 := by
  cases x <;> simp [truthyQ]

theorem extract_any_price_pos {toks : List String} {m : ℚ}
    (h : extract_any_price toks = some m) : 0 < m := by
  unfold extract_any_price at h
  have hmem := List.min?_mem (fun a b => min_choice a b) h
  have hf := List.of_mem_filter hmem
  simp only [Bool.and_eq_true, decide_eq_true_eq] at hf
  exact hf.2

/-- What `_parse_entry` stores in a produced pepper deal. -/
theorem pepperParseEntry_spec {now : ℤ} {e : PepperEntry} {d : Deal}
    (h : pepperParseEntry now e = some d) :
    d.validFrom = e.published.getD now ∧
    d.validUntil = e.published.getD now + 7 * oneDay ∧
    d.originalPrice = (pepperPriceStep (e.origTok.bind parse_price)
        (e.saleTok.bind parse_price) (extract_any_price e.anyToks)).1.getD 0 ∧
    d.salePrice = (pepperPriceStep (e.origTok.bind parse_price)
        (e.saleTok.bind parse_price) (extract_any_price e.anyToks)).2.1.getD 0 ∧
    d.discountPercentage = (pepperPriceStep (e.origTok.bind parse_price)
        (e.saleTok.bind parse_price) (extract_any_price e.anyToks)).2.2 := by
  unfold pepperParseEntry at h
  split at h
  · exact absurd h (by simp)
  · injection h with h
    subst h
    exact ⟨rfl, rfl, rfl, rfl, rfl⟩

/-- The price triple of `_parse_entry` satisfies the §3 invariants
whenever the extracted inputs are non-negative (and any-price inputs
positive). -/
theorem pepperPriceStep_invariants {o0 s0 a : Option ℚ}
    (ho : ∀ q, o0 = some q → 0 ≤ q)
    (hs : ∀ q, s0 = some q → 0 ≤ q)
    (ha : ∀ q, a = some q → 0 < q) :
    0 ≤ (pepperPriceStep o0 s0 a).2.1.getD 0 ∧
    (pepperPriceStep o0 s0 a).2.1.getD 0 ≤ (pepperPriceStep o0 s0 a).1.getD 0 ∧
    0 ≤ (pepperPriceStep o0 s0 a).2.2 ∧ (pepperPriceStep o0 s0 a).2.2 ≤ 100 := by
  unfold pepperPriceStep
  dsimp only []
  by_cases h1 : (truthyQ o0 && truthyQ s0 && decide (s0.getD 0 < o0.getD 0)) = true
  · rw [if_pos h1]
    simp only [Bool.and_eq_true, decide_eq_true_eq] at h1
    obtain ⟨⟨hto, hts⟩, hlt⟩ := h1
    rw [if_pos hts]
    obtain ⟨o, hoe, hone⟩ := truthyQ_eq_true.mp hto
    obtain ⟨s, hse, hsne⟩ := truthyQ_eq_true.mp hts
    subst hoe hse
    simp only [Option.getD_some] at hlt ⊢
    have hs0 : 0 ≤ s := hs s rfl
    have hoo : 0 < o := lt_of_le_of_lt hs0 hlt
    have hb := discount_bounds hs0 hlt.le hoo
    exact ⟨hs0, hlt.le, hb.1, hb.2⟩
  · rw [if_neg h1]
    by_cases h2 : truthyQ s0 = true
    · rw [if_pos h2]
      dsimp only []
      rw [if_pos h2]
      obtain ⟨s, hse, hsne⟩ := truthyQ_eq_true.mp h2
      subst hse
      simp only [Option.getD_some]
      have hs0 : 0 ≤ s := hs s rfl
      refine ⟨hs0, by nlinarith, by norm_num, by norm_num⟩
    · rw [if_neg h2]
      dsimp only []
      rw [if_neg h2]
      cases hae : a with
      | none => simp
      | some m =>
          have hm := ha m hae
          dsimp only []
          rw [if_pos (by simp [truthyQ, hm.ne'])]
          simp only [Option.getD_some]
          refine ⟨hm.le, by nlinarith, by norm_num, by norm_num⟩

/-- What `parse_daisycon_feed` stores in a produced deal. -/
theorem parseDaisyconProduct_spec {now : ℤ} {p : XmlProduct} {d : Deal}
    (h : parseDaisyconProduct now p = some d) :
    ∃ sale orig0 : ℚ,
      daisyParsePrice (p.price.getD "0") = some sale ∧
      daisyParsePrice (p.priceOld.getD (p.price.getD "0")) = some orig0 ∧
      d.salePrice = sale ∧
      d.originalPrice =
        (if orig0 ≤ sale then sale * (12 / 10 : ℚ) else orig0) ∧
      d.originalPrice ≠ 0 ∧
      d.discountPercentage =
        truncQ ((d.originalPrice - d.salePrice) / d.originalPrice * 100) ∧
      d.validFrom = now ∧
      d.createdAt = now ∧
      d.validUntil =
        (if p.validUntil.getD "" ≠ "" then
          match strptimeYMD (p.validUntil.getD "") with
          | some t => t
          | none => now + 30 * oneDay
        else now + 30 * oneDay) := by
  unfold parseDaisyconProduct at h
  dsimp only [] at h
  split at h
  · exact absurd h (by simp)
  · split at h
    · rename_i sale orig0 hsale horig
      set orig := (if orig0 ≤ sale then sale * (12 / 10 : ℚ) else orig0)
        with horigdef
      split at h
      · exact absurd h (by simp)
      · rename_i hne
        injection h with h
        subst h
        exact ⟨sale, orig0, hsale, horig, rfl, rfl, hne, rfl, rfl, rfl, rfl⟩
    · exact absurd h (by simp)

/-- What `_create_deal_from_data` stores in a produced deal. -/
theorem createDealFromData_spec {now : ℤ} {cfg : StoreCfg} {item : JsonLdItem}
    {url : String} {d : Deal}
    (h : createDealFromData now cfg item url = some d) :
    ∃ sale orig : ℚ,
      0 < sale ∧ sale < orig ∧
      d.salePrice = round2 sale ∧ d.originalPrice = round2 orig ∧
      d.discountPercentage = truncQ ((orig - sale) / orig * 100) ∧
      5 ≤ d.discountPercentage ∧
      d.validFrom = now ∧ d.validUntil = now + 7 * oneDay := by
  unfold createDealFromData at h
  dsimp only [] at h
  split at h
  · exact absurd h (by simp)
  · split at h
    · exact absurd h (by simp)
    · split at h
      · exact absurd h (by simp)
      · rename_i sale hsale
        split at h
        · exact absurd h (by simp)
        · rename_i hpos
          push_neg at hpos
          split at h
          · rename_i hle
            split at h
            · exact absurd h (by simp)
            · rename_i hdisc
              push_neg at hdisc
              injection h with h
              subst h
              exact ⟨sale, sale * (12 / 10 : ℚ), hpos, by nlinarith,
                rfl, rfl, rfl, hdisc, rfl, rfl⟩
          · rename_i hgt
            push_neg at hgt
            split at h
            · exact absurd h (by simp)
            · rename_i hdisc
              push_neg at hdisc
              injection h with h
              subst h
              exact ⟨sale, _, hpos, hgt, rfl, rfl, rfl, hdisc, rfl, rfl⟩

/-- What `_parse_html_generic` stores in a produced deal. -/
theorem parseHtmlItem_spec {now : ℤ} {cfg : StoreCfg} {item : HtmlItem}
    {url : String} {d : Deal}
    (h : parseHtmlItem now cfg item url = some d) :
    ∃ sale : ℚ, 1 ≤ sale ∧ d.salePrice = round2 sale ∧
      d.originalPrice = round2 (sale * (12 / 10 : ℚ)) ∧
      d.discountPercentage = 20 ∧
      d.validFrom = now ∧ d.validUntil = now + 7 * oneDay := by
  unfold parseHtmlItem at h
  dsimp only [] at h
  split at h
  · exact absurd h (by simp)
  · rename_i sale hsale
    split at h
    · exact absurd h (by simp)
    · rename_i hguard
      push_neg at hguard
      split at h
      · exact absurd h (by simp)
      · injection h with h
        subst h
        exact ⟨sale, hguard.2.2.2, rfl, rfl, rfl, rfl, rfl⟩

/-! ## Claim C2: price invariants at construction -/

/-- Counterexample to claim C2: the affiliate-feed parser has no
non-negativity guard — a feed price of `"-5"` produces a Deal whose
`sale_price` is negative and exceeds its `original_price`. -/
theorem C2_counterexample :
    (parseDaisyconProduct 0 prodNeg).any (fun d =>
      decide (d.salePrice < 0) && decide (d.originalPrice < d.salePrice)) = true := by
  with_unfolding_all decide

/-- Claim C2 as amended: `0 ≤ sale_price ≤ original_price` and
`0 ≤ discount_percentage ≤ 100` hold at construction for the pepper
path (whose regex-captured price tokens are digit strings), the JSON-LD
store path and the generic-HTML store path unconditionally; for the
affiliate-feed path they hold exactly when the parsed sale price is
non-negative — a negative feed price is passed straight through. -/
theorem C2_price_invariants :
    (∀ (now : ℤ) (p : XmlProduct) (d : Deal),
        parseDaisyconProduct now p = some d → 0 ≤ d.salePrice →
        d.salePrice ≤ d.originalPrice ∧
        0 ≤ d.discountPercentage ∧ d.discountPercentage ≤ 100) ∧
    (∀ (now : ℤ) (e : PepperEntry) (d : Deal),
        pepperParseEntry now e = some d → pepperTokensOk e →
        0 ≤ d.salePrice ∧ d.salePrice ≤ d.originalPrice ∧
        0 ≤ d.discountPercentage ∧ d.discountPercentage ≤ 100) ∧
    (∀ (now : ℤ) (cfg : StoreCfg) (item : JsonLdItem) (url : String) (d : Deal),
        createDealFromData now cfg item url = some d →
        0 ≤ d.salePrice ∧ d.salePrice ≤ d.originalPrice ∧
        0 ≤ d.discountPercentage ∧ d.discountPercentage ≤ 100) ∧
    (∀ (now : ℤ) (cfg : StoreCfg) (item : HtmlItem) (url : String) (d : Deal),
        parseHtmlItem now cfg item url = some d →
        0 ≤ d.salePrice ∧ d.salePrice ≤ d.originalPrice ∧
        0 ≤ d.discountPercentage ∧ d.discountPercentage ≤ 100) := by
  refine ⟨?_, ?_, ?_, ?_⟩
  · intro now p d h hsp
    obtain ⟨sale, orig0, hsale, horig, hseq, hoeq, hone, hdeq, -, -, -⟩ :=
      parseDaisyconProduct_spec h
    have hsale0 : 0 ≤ sale := hseq ▸ hsp
    by_cases hc : orig0 ≤ sale
    · have hoeq2 : d.originalPrice = sale * (12 / 10 : ℚ) := by
        rw [hoeq, if_pos hc]
      have hne : sale ≠ 0 := by
        intro h0
        exact hone (by rw [hoeq2, h0]; ring)
      have hpos : 0 < sale := lt_of_le_of_ne hsale0 (Ne.symm hne)
      have hso : d.salePrice ≤ d.originalPrice := by
        rw [hseq, hoeq2]; nlinarith
      have hop : 0 < d.originalPrice := by rw [hoeq2]; nlinarith
      have hb := discount_bounds hsp hso hop
      exact ⟨hso, by rw [hdeq]; exact hb.1, by rw [hdeq]; exact hb.2⟩
    · push_neg at hc
      have hoeq2 : d.originalPrice = orig0 := by
        rw [hoeq, if_neg (not_le.mpr hc)]
      have hso : d.salePrice ≤ d.originalPrice := by
        rw [hseq, hoeq2]; exact hc.le
      have hop : 0 < d.originalPrice := by
        rw [hoeq2]; exact lt_of_le_of_lt hsale0 hc
      have hb := discount_bounds hsp hso hop
      exact ⟨hso, by rw [hdeq]; exact hb.1, by rw [hdeq]; exact hb.2⟩
  · intro now e d h htoks
    obtain ⟨-, -, hoeq, hseq, hdeq⟩ := pepperParseEntry_spec h
    have ho : ∀ q, e.origTok.bind parse_price = some q → 0 ≤ q := by
      intro q hq
      rcases Option.bind_eq_some.mp hq with ⟨t, ht, hpt⟩
      exact parse_price_tok_nonneg hpt (htoks.2.1 t ht)
    have hs : ∀ q, e.saleTok.bind parse_price = some q → 0 ≤ q := by
      intro q hq
      rcases Option.bind_eq_some.mp hq with ⟨t, ht, hpt⟩
      exact parse_price_tok_nonneg hpt (htoks.1 t ht)
    have ha : ∀ q, extract_any_price e.anyToks = some q → 0 < q :=
      fun q hq => extract_any_price_pos hq
    have hinv := pepperPriceStep_invariants ho hs ha
    exact ⟨by rw [hseq]; exact hinv.1, by rw [hseq, hoeq]; exact hinv.2.1,
      by rw [hdeq]; exact hinv.2.2.1, by rw [hdeq]; exact hinv.2.2.2⟩
  · intro now cfg item url d h
    obtain ⟨sale, orig, hs, hso, hseq, hoeq, hdeq, -, -, -⟩ :=
      createDealFromData_spec h
    have hb := discount_bounds hs.le hso.le (hs.trans hso)
    exact ⟨by rw [hseq]; exact round2_nonneg hs.le,
      by rw [hseq, hoeq]; exact round2_mono hso.le,
      by rw [hdeq]; exact hb.1, by rw [hdeq]; exact hb.2⟩
  · intro now cfg item url d h
    obtain ⟨sale, h1, hseq, hoeq, hdeq, -, -⟩ := parseHtmlItem_spec h
    refine ⟨by rw [hseq]; exact round2_nonneg (by linarith),
      by rw [hseq, hoeq]; exact round2_mono (by nlinarith),
      by rw [hdeq]; norm_num, by rw [hdeq]; norm_num⟩

/-- Witness for C2: a feed product priced 2 (was 4) satisfies all the
invariants. -/
theorem C2_witness :
    (parseDaisyconProduct 0 prodOk).elim False (fun d =>
      d.salePrice ≤ d.originalPrice ∧
      0 ≤ d.discountPercentage ∧ d.discountPercentage ≤ 100) := by
  have hsm : (parseDaisyconProduct 0 prodOk).isSome = true := by
    with_unfolding_all decide
  have hnn : (parseDaisyconProduct 0 prodOk).all
      (fun d => decide (0 ≤ d.salePrice)) = true := by
    with_unfolding_all decide
  cases hp : parseDaisyconProduct 0 prodOk with
  | none => rw [hp] at hsm; cases hsm
  | some d =>
      rw [hp] at hnn
      simp only [Option.all_some, decide_eq_true_eq] at hnn
      simpa [Option.elim] using C2_price_invariants.1 0 prodOk d hp hnn

/-! ## Claim C3: validity-window invariant -/

/-- Counterexample to claim C3: a feed product whose expiry date lies
in the past yields a Deal with `valid_until < valid_from` — the parser
sets `valid_from = now` unconditionally and performs no correction. -/
theorem C3_counterexample :
    (parseDaisyconProduct t2025 prodPast).any (fun d =>
      decide (d.validUntil < d.validFrom)) = true := by
  with_unfolding_all decide

/-- Claim C3 as amended: the pepper and store paths always produce
`valid_from ≤ valid_until`; the affiliate-feed path sets
`valid_from = now` and stores a parsable feed expiry as-is (defaulting
to `now + 30 days` when absent or unparsable), so the invariant holds
exactly when the feed expiry is not in the past, and a past feed expiry
is not corrected. -/
theorem C3_validity_window :
    (∀ (now : ℤ) (e : PepperEntry) (d : Deal),
        pepperParseEntry now e = some d → d.validFrom ≤ d.validUntil) ∧
    (∀ (now : ℤ) (cfg : StoreCfg) (item : JsonLdItem) (url : String) (d : Deal),
        createDealFromData now cfg item url = some d →
        d.validFrom ≤ d.validUntil) ∧
    (∀ (now : ℤ) (cfg : StoreCfg) (item : HtmlItem) (url : String) (d : Deal),
        parseHtmlItem now cfg item url = some d →
        d.validFrom ≤ d.validUntil) ∧
    (∀ (now : ℤ) (p : XmlProduct) (d : Deal),
        parseDaisyconProduct now p = some d →
        d.validFrom = now ∧
        (strptimeYMD (p.validUntil.getD "") = none →
            d.validUntil = now + 30 * oneDay) ∧
        (∀ t, strptimeYMD (p.validUntil.getD "") = some t →
            d.validUntil = t)) := by
  refine ⟨?_, ?_, ?_, ?_⟩
  · intro now e d h
    obtain ⟨hf, hu, -, -, -⟩ := pepperParseEntry_spec h
    rw [hf, hu]
    simp only [oneDay]
    omega
  · intro now cfg item url d h
    obtain ⟨-, -, -, -, -, -, -, -, hf, hu⟩ := createDealFromData_spec h
    rw [hf, hu]
    simp only [oneDay]
    omega
  · intro now cfg item url d h
    obtain ⟨-, -, -, -, -, hf, hu⟩ := parseHtmlItem_spec h
    rw [hf, hu]
    simp only [oneDay]
    omega
  · intro now p d h
    obtain ⟨-, -, -, -, -, -, -, -, hf, -, hu⟩ := parseDaisyconProduct_spec h
    refine ⟨hf, ?_, ?_⟩
    · intro hnone
      rw [hu]
      split
      · rw [hnone]
      · rfl
    · intro t ht
      rw [hu]
      have hne : p.validUntil.getD "" ≠ "" := by
        have h0 : strptimeYMD "" = none := by with_unfolding_all decide
        intro hc
        rw [hc, h0] at ht
        cases ht
      rw [if_pos hne, ht]

/-- Witness for C3: a pepper entry and a feed product without expiry
both satisfy the invariant, the latter with `valid_from = now`. -/
theorem C3_witness :
    (pepperParseEntry 0 entryW).elim False
      (fun d => d.validFrom ≤ d.validUntil) ∧
    (parseDaisyconProduct 0 prodOk).elim False
      (fun d => d.validFrom = 0) := by
  constructor
  · have hsm : (pepperParseEntry 0 entryW).isSome = true := by
      with_unfolding_all decide
    cases hp : pepperParseEntry 0 entryW with
    | none => rw [hp] at hsm; cases hsm
    | some d =>
        simpa [Option.elim] using C3_validity_window.1 0 entryW d hp
  · have hsm : (parseDaisyconProduct 0 prodOk).isSome = true := by
      with_unfolding_all decide
    cases hp : parseDaisyconProduct 0 prodOk with
    | none => rw [hp] at hsm; cases hsm
    | some d =>
        simpa [Option.elim] using
          (C3_validity_window.2.2.2 0 prodOk d hp).1

/-! ## Claim C4: the discount is truncated, not rounded -/

/-- Counterexample to claim C4: a feed product priced 1 (was 3) gets a
66.67% discount stored as `66` by `int()` truncation, while rounding to
the nearest integer gives `67`. -/
theorem C4_counterexample :
    (parseDaisyconProduct 0 prodThird).any (fun d =>
      decide (0 < d.originalPrice) && decide (d.discountPercentage = 66) &&
      decide (d.discountPercentage ≠
        round ((d.originalPrice - d.salePrice) / d.originalPrice * 100))) = true := by
  with_unfolding_all decide

/-- Claim C4 as amended: for a produced Deal with positive original
price, `discount_percentage` is the percentage truncated toward zero
(the floor, as the value is non-negative), not rounded to nearest; the
store JSON-LD path computes it from the prices before their 2-decimal
rounding. -/
theorem C4_discount_truncation :
    (∀ (now : ℤ) (p : XmlProduct) (d : Deal),
        parseDaisyconProduct now p = some d → 0 < d.originalPrice →
        d.discountPercentage =
          ⌊(d.originalPrice - d.salePrice) / d.originalPrice * 100⌋) ∧
    (∀ (now : ℤ) (cfg : StoreCfg) (item : JsonLdItem) (url : String) (d : Deal),
        createDealFromData now cfg item url = some d →
        ∃ o s : ℚ, 0 < o ∧ d.originalPrice = round2 o ∧ d.salePrice = round2 s ∧
          d.discountPercentage = ⌊(o - s) / o * 100⌋) := by
  constructor
  · intro now p d h hop
    obtain ⟨sale, orig0, hsale, horig, hseq, hoeq, hone, hdeq, -, -, -⟩ :=
      parseDaisyconProduct_spec h
    have hso : d.salePrice ≤ d.originalPrice := by
      by_cases hc : orig0 ≤ sale
      · have hoeq2 : d.originalPrice = sale * (12 / 10 : ℚ) := by
          rw [hoeq, if_pos hc]
        have hpos : 0 < sale := by
          rw [hoeq2] at hop; nlinarith
        rw [hseq, hoeq2]; nlinarith
      · push_neg at hc
        have hoeq2 : d.originalPrice = orig0 := by
          rw [hoeq, if_neg (not_le.mpr hc)]
        rw [hseq, hoeq2]; exact hc.le
    have hq : 0 ≤ (d.originalPrice - d.salePrice) / d.originalPrice * 100 :=
      mul_nonneg (div_nonneg (by linarith) hop.le) (by norm_num)
    rw [hdeq, truncQ_of_nonneg hq]
  · intro now cfg item url d h
    obtain ⟨sale, orig, hs, hso, hseq, hoeq, hdeq, -, -, -⟩ :=
      createDealFromData_spec h
    refine ⟨orig, sale, hs.trans hso, hoeq, hseq, ?_⟩
    have hq : 0 ≤ (orig - sale) / orig * 100 :=
      mul_nonneg (div_nonneg (by linarith) (by linarith)) (by norm_num)
    rw [hdeq, truncQ_of_nonneg hq]

/-- Witness for C4: the 2-for-4 feed product's stored discount equals
the floored percentage. -/
theorem C4_witness :
    (parseDaisyconProduct 0 prodOk).elim False (fun d =>
      d.discountPercentage =
        ⌊(d.originalPrice - d.salePrice) / d.originalPrice * 100⌋) := by
  have hsm : (parseDaisyconProduct 0 prodOk).isSome = true := by
    with_unfolding_all decide
  have hpos : (parseDaisyconProduct 0 prodOk).all
      (fun d => decide (0 < d.originalPrice)) = true := by
    with_unfolding_all decide
  cases hp : parseDaisyconProduct 0 prodOk with
  | none => rw [hp] at hsm; cases hsm
  | some d =>
      rw [hp] at hpos
      simp only [Option.all_some, decide_eq_true_eq] at hpos
      simpa [Option.elim] using C4_discount_truncation.1 0 prodOk d hp hpos

end Korting
